import Mathlib

/-!
Shallow embedding of the PredMonitor trade-monitoring pipeline.

Conventions used throughout this development:
* Python `float` values are embedded as `ℚ` (exact rational arithmetic).
* Python `str` values are embedded as `List Char`, written `Str` below;
  `s.lower()` becomes `lowerStr`, substring tests become `containsSeq`.
* Python `None` / optional values are embedded as `Option`.
* Python dictionaries are embedded as association lists.
Each definition is translated from the corresponding function in the
repository source, named after it, with the source location in its
doc comment.
-/

/-- Embedding of Python strings as lists of characters. -/
abbrev Str := List Char

/-- Lowercasing a string, embedding Python `str.lower()`. -/
def lowerStr (s : Str) : Str := s.map Char.toLower

/-- Test whether `pat` is a prefix of `l` (used to implement substring search). -/
def startsWithSeq : Str → Str → Bool
  | [], _ => true
  | _ :: _, [] => false
  | a :: pa, b :: lb => a = b && startsWithSeq pa lb

/-- Test whether `pat` occurs as a contiguous substring of `l`,
embedding the Python `pat in text` operator on strings. -/
def containsSeq (pat : Str) : Str → Bool
  | [] => startsWithSeq pat []
  | b :: lb => startsWithSeq pat (b :: lb) || containsSeq pat lb

/-- Canonical `Trade` record, embedding the dataclass
`Trade` of `store/trade_store.py` lines 9-25. -/
structure Trade where
  timestamp : ℚ
  platform : Str
  market : Str
  size_usd : ℚ
  side : Str
  actor_address : Option Str
  price : Option ℚ
  quantity : Option ℚ
  trade_id : Option Str := none
  market_label : Option Str := none
  market_is_niche : Option Bool := none
  market_is_stock : Option Bool := none
  market_volume : Option ℚ := none
  cluster_id : Option Str := none
  market_category : Option Str := none
deriving DecidableEq

/-- State of `InMemoryTradeStore` (`store/trade_store.py` lines 28-32):
a bounded list of trades.  The lock is concurrency plumbing with no
sequential semantics and is not modelled. -/
structure InMemoryTradeStore where
  maxlen : Nat
  trades : List Trade
deriving DecidableEq

/-- Embedding of `InMemoryTradeStore.add_trade` (`store/trade_store.py`
lines 34-40): drop trades below the 100 USD gate, append, and trim the
list to the newest `maxlen` entries on overflow.  The Python slice
`trades[-maxlen:]` keeps the whole list when `maxlen = 0`. -/
def InMemoryTradeStore.add_trade (s : InMemoryTradeStore) (trade : Trade) :
    InMemoryTradeStore :=
  if trade.size_usd < 100 then s
  else
    let ts := s.trades ++ [trade]
    if s.maxlen < ts.length then
      { s with trades := if s.maxlen = 0 then ts else ts.drop (ts.length - s.maxlen) }
    else { s with trades := ts }

/-- State of `SqliteTradeStore`: the `whale_flows` table contents, one
`Trade` per row (`store/trade_store.py` lines 193-231; the SQL row stores
booleans as 0/1 integers, an encoding detail dropped by the embedding). -/
structure SqliteTradeStore where
  rows : List Trade
deriving DecidableEq

/-- Embedding of `SqliteTradeStore.add_trade` (`store/trade_store.py`
lines 249-291): drop trades below the 100 USD gate, then
`INSERT OR IGNORE` against the `UNIQUE(platform, trade_id)` constraint
of `_init_db` (lines 199-219).  SQL `UNIQUE` treats NULLs as distinct,
so the conflict check only applies when `trade_id` is non-NULL. -/
def SqliteTradeStore.add_trade (s : SqliteTradeStore) (trade : Trade) :
    SqliteTradeStore :=
  if trade.size_usd < 100 then s
  else if trade.trade_id ≠ none ∧
      ∃ r ∈ s.rows, r.platform = trade.platform ∧ r.trade_id = trade.trade_id then s
  else { rows := s.rows ++ [trade] }

/-- State of `PostgresTradeStore`: the `whale_flows` table contents
(`store/trade_store.py` lines 544-579). -/
structure PostgresTradeStore where
  rows : List Trade
deriving DecidableEq

/-- Embedding of `PostgresTradeStore.add_trade` (`store/trade_store.py`
lines 581-617): drop trades below the 100 USD gate, then `INSERT ...
ON CONFLICT (platform, trade_id) DO NOTHING`; NULL `trade_id` values do
not conflict. -/
def PostgresTradeStore.add_trade (s : PostgresTradeStore) (trade : Trade) :
    PostgresTradeStore :=
  if trade.size_usd < 100 then s
  else if trade.trade_id ≠ none ∧
      ∃ r ∈ s.rows, r.platform = trade.platform ∧ r.trade_id = trade.trade_id then s
  else { rows := s.rows ++ [trade] }

/-- Concrete sub-gate trade used by witnesses. -/
def tinyTrade : Trade :=
  { timestamp := 0, platform := "polymarket".toList, market := "m1".toList,
    size_usd := 5, side := "yes".toList, actor_address := none,
    price := none, quantity := none }

/-- Concrete above-gate trade with a non-empty trade id, used by C2. -/
def dupTrade : Trade :=
  { timestamp := 1, platform := "kalshi".toList, market := "m2".toList,
    size_usd := 100, side := "yes".toList, actor_address := none,
    price := none, quantity := none, trade_id := some "K-1".toList }

/-- C1: for every `Trade` with `size_usd < 100`, `add_trade` is a no-op on
each of the three store backends: the persisted contents are unchanged. -/
theorem add_trade_size_gate (t : Trade) (h : t.size_usd < 100)
    (m : InMemoryTradeStore) (s : SqliteTradeStore) (p : PostgresTradeStore) :
    m.add_trade t = m ∧ s.add_trade t = s ∧ p.add_trade t = p := by
  refine ⟨?_, ?_, ?_⟩ <;>
    simp [InMemoryTradeStore.add_trade, SqliteTradeStore.add_trade,
      PostgresTradeStore.add_trade, h]

/-- C1 witness: the size gate theorem applied to a concrete 5 USD trade
and concrete empty stores. -/
theorem add_trade_size_gate_witness :
    tinyTrade.size_usd < 100 ∧
      (InMemoryTradeStore.mk 2000 []).add_trade tinyTrade =
          InMemoryTradeStore.mk 2000 [] ∧
      (SqliteTradeStore.mk []).add_trade tinyTrade = SqliteTradeStore.mk [] ∧
      (PostgresTradeStore.mk []).add_trade tinyTrade = PostgresTradeStore.mk [] :=
  ⟨by norm_num [tinyTrade],
    add_trade_size_gate tinyTrade (by norm_num [tinyTrade])
      (InMemoryTradeStore.mk 2000 []) (SqliteTradeStore.mk [])
      (PostgresTradeStore.mk [])⟩

/-- C2 counterexample: on the in-memory backend, adding the same
above-gate trade (platform "kalshi", trade id "K-1", size 100) twice
leaves two persisted entries with that `(platform, trade_id)` key, not
one: `InMemoryTradeStore.add_trade` performs no deduplication. -/
theorem inmemory_dedup_counterexample :
    100 ≤ dupTrade.size_usd ∧ dupTrade.trade_id = some "K-1".toList ∧
      ((((InMemoryTradeStore.mk 2000 []).add_trade dupTrade).add_trade
            dupTrade).trades.filter
          (fun r => decide (r.platform = dupTrade.platform ∧
            r.trade_id = dupTrade.trade_id))).length = 2 := by
  refine ⟨by norm_num [dupTrade], rfl, ?_⟩
  decide

/-- C2 (amended): on the SQLite and Postgres backends, inserting two
trades with `size_usd ≥ 100`, the same platform and the same non-empty
`trade_id` into a store holding no row with that key leaves exactly one
persisted row with that `(platform, trade_id)`; the second insert is
silently ignored.  (The in-memory backend appends without deduplication,
see the counterexample.) -/
theorem sql_dedup (s : SqliteTradeStore) (p : PostgresTradeStore)
    (t1 t2 : Trade) (pf id : Str)
    (h1 : 100 ≤ t1.size_usd) (h2 : 100 ≤ t2.size_usd)
    (hp1 : t1.platform = pf) (hp2 : t2.platform = pf)
    (hid1 : t1.trade_id = some id) (hid2 : t2.trade_id = some id)
    (_hne : id ≠ [])
    (hs : ∀ r ∈ s.rows, ¬(r.platform = pf ∧ r.trade_id = some id))
    (hpr : ∀ r ∈ p.rows, ¬(r.platform = pf ∧ r.trade_id = some id)) :
    (((s.add_trade t1).add_trade t2).rows.filter
        (fun r => decide (r.platform = pf ∧ r.trade_id = some id))).length = 1 ∧
      (((p.add_trade t1).add_trade t2).rows.filter
        (fun r => decide (r.platform = pf ∧ r.trade_id = some id))).length = 1 := by
  have gate1 : ¬ t1.size_usd < 100 := not_lt.mpr h1
  have gate2 : ¬ t2.size_usd < 100 := not_lt.mpr h2
  constructor
  · have step1 : s.add_trade t1 = ⟨s.rows ++ [t1]⟩ := by
      unfold SqliteTradeStore.add_trade
      rw [if_neg gate1, if_neg]
      rintro ⟨-, r, hr, hplat, hid⟩
      exact hs r hr ⟨hplat.trans hp1, hid.trans hid1⟩
    have step2 : (s.add_trade t1).add_trade t2 = s.add_trade t1 := by
      rw [step1]
      unfold SqliteTradeStore.add_trade
      rw [if_neg gate2, if_pos]
      refine ⟨by simp [hid2], t1, by simp, by simp [hp1, hp2], by simp [hid1, hid2]⟩
    rw [step2, step1]
    simp only [List.filter_append, List.length_append]
    rw [List.filter_eq_nil_iff.mpr, List.length_nil]
    · simp [hp1, hid1]
    · intro r hr
      simpa using hs r hr
  · have step1 : p.add_trade t1 = ⟨p.rows ++ [t1]⟩ := by
      unfold PostgresTradeStore.add_trade
      rw [if_neg gate1, if_neg]
      rintro ⟨-, r, hr, hplat, hid⟩
      exact hpr r hr ⟨hplat.trans hp1, hid.trans hid1⟩
    have step2 : (p.add_trade t1).add_trade t2 = p.add_trade t1 := by
      rw [step1]
      unfold PostgresTradeStore.add_trade
      rw [if_neg gate2, if_pos]
      refine ⟨by simp [hid2], t1, by simp, by simp [hp1, hp2], by simp [hid1, hid2]⟩
    rw [step2, step1]
    simp only [List.filter_append, List.length_append]
    rw [List.filter_eq_nil_iff.mpr, List.length_nil]
    · simp [hp1, hid1]
    · intro r hr
      simpa using hpr r hr

/-- C2 witness: the amended dedup theorem applied to two concrete copies
of the same above-gate trade on concrete empty SQL stores. -/
theorem sql_dedup_witness :
    ((((SqliteTradeStore.mk []).add_trade dupTrade).add_trade dupTrade).rows.filter
        (fun r => decide (r.platform = "kalshi".toList ∧
          r.trade_id = some "K-1".toList))).length = 1 :=
  (sql_dedup (SqliteTradeStore.mk []) (PostgresTradeStore.mk []) dupTrade dupTrade
    "kalshi".toList "K-1".toList (by norm_num [dupTrade]) (by norm_num [dupTrade])
    rfl rfl rfl rfl (by decide) (by simp) (by simp)).1

/-- Character class of the regex word metacharacter: alphanumerics and
underscore (ASCII fragment of Python `\w` / `.isalnum()`). -/
def isWordChar (c : Char) : Bool := c.isAlphanum || c = '_'

namespace MarketClassifier

/-- Classifier configuration, embedding `MarketClassifierConfig`
(`market_classifier.py` lines 90-96). -/
structure Config where
  niche_keywords : List Str
  stock_keywords : List Str
  exclude_keywords : List Str
  max_years_ahead : Int
  niche_max_volume : Option ℚ

/-- Classification result, embedding `MarketClassification`
(`market_classifier.py` lines 79-87). -/
structure Classification where
  is_niche : Bool
  is_stock : Bool
  is_excluded : Bool
  is_long_dated : Bool
  matched_niche : List Str
  matched_stock : List Str
  matched_exclude : List Str
deriving DecidableEq

/-- Embedding of `MarketClassifier._term_in_text` (`market_classifier.py`
lines 197-202).  The source builds its regex with `rf"\\b{term}\\b"`; in
a raw f-string `\\b` denotes a literal backslash followed by the letter
b, so for alphanumeric terms of length at most 3 the search succeeds only
when the text literally contains backslash-b, term, backslash-b (for such
terms `re.escape` is the identity and the remaining pattern characters
are regex literals).  Other terms are matched by plain substring. -/
def term_in_text (term text : Str) : Bool :=
  if term.any (fun c => !c.isAlphanum) then containsSeq term text
  else if term.length ≤ 3 then
    containsSeq ("\\b".toList ++ term ++ "\\b".toList) text
  else containsSeq term text

/-- Embedding of `MarketClassifier._match_terms` (`market_classifier.py`
lines 188-195): keep the non-empty terms found in the text, in
configuration order. -/
def match_terms (text : Str) (terms : List Str) : List Str :=
  terms.filter (fun term => !term.isEmpty && term_in_text term text)

/-- Matcher for `YEAR_PATTERN` at the head of the remaining text: the
regex fragment `(20\d{2})\b` (`market_classifier.py` line 76), returning
the matched year. -/
def yearAt : Str → Option Int
  | c1 :: c2 :: c3 :: c4 :: rest =>
      if c1 = '2' && c2 = '0' && c3.isDigit && c4.isDigit &&
          (match rest with | [] => true | c :: _ => !isWordChar c) then
        some (2000 + 10 * ((c3.toNat : Int) - 48) + ((c4.toNat : Int) - 48))
      else none
  | _ => none

/-- All matches of `YEAR_PATTERN` (`\b(20\d{2})\b`) in the text, scanning
every position whose left neighbour is not a word character; matches of
this pattern never overlap, so this equals `re.findall`. -/
def scanYears : Option Char → Str → List Int
  | _, [] => []
  | prev, c :: rest =>
      (if (match prev with | none => true | some q => !isWordChar q) then
        (yearAt (c :: rest)).toList
      else []) ++ scanYears (some c) rest

/-- Embedding of `MarketClassifier._is_long_dated` (`market_classifier.py`
lines 174-186); `currentYear` stands for `datetime.utcnow().year`. -/
def is_long_dated (cfg : Config) (currentYear : Int) (text : Str) : Bool :=
  if cfg.max_years_ahead ≤ 0 then false
  else (scanYears none text).any
    (fun y => decide (currentYear + cfg.max_years_ahead < y))

/-- Embedding of `MarketClassifier.classify` (`market_classifier.py`
lines 145-172); `currentYear` stands for the wall-clock year read inside
`_is_long_dated`. -/
def classify (cfg : Config) (currentYear : Int) (text : Option Str)
    (volume : Option ℚ) : Classification :=
  let text_blob := lowerStr (text.getD [])
  let matched_niche := match_terms text_blob cfg.niche_keywords
  let matched_stock := match_terms text_blob cfg.stock_keywords
  let matched_exclude := match_terms text_blob cfg.exclude_keywords
  let long_dated := is_long_dated cfg currentYear text_blob
  let niche0 := !matched_niche.isEmpty
  let niche := match volume, cfg.niche_max_volume with
    | some v, some m => if v ≤ m then true else niche0
    | _, _ => niche0
  let stock := !matched_stock.isEmpty
  let excluded := !matched_exclude.isEmpty || long_dated
  if excluded then
    { is_niche := false, is_stock := false, is_excluded := excluded,
      is_long_dated := long_dated, matched_niche := matched_niche,
      matched_stock := matched_stock, matched_exclude := matched_exclude }
  else
    { is_niche := niche, is_stock := stock, is_excluded := excluded,
      is_long_dated := long_dated, matched_niche := matched_niche,
      matched_stock := matched_stock, matched_exclude := matched_exclude }

end MarketClassifier

/-- C3: whenever `classify` reports `is_excluded = true` (an exclude
keyword matched or the text is long-dated), the returned `is_niche` and
`is_stock` are both false, for every configuration, current year, text
and volume — regardless of niche/stock keyword matches or the volume
rule. -/
theorem classify_exclusion_dominance (cfg : MarketClassifier.Config)
    (year : Int) (text : Option Str) (volume : Option ℚ)
    (h : (MarketClassifier.classify cfg year text volume).is_excluded = true) :
    (MarketClassifier.classify cfg year text volume).is_niche = false ∧
      (MarketClassifier.classify cfg year text volume).is_stock = false := by
  unfold MarketClassifier.classify at h ⊢
  dsimp only at h ⊢
  rw [apply_ite MarketClassifier.Classification.is_excluded] at h
  dsimp only at h
  rw [ite_self] at h
  rw [if_pos h]
  exact ⟨rfl, rfl⟩

/-- Concrete classifier configuration for the C3 witness: "crypto" is an
exclude keyword, "fraud" a niche keyword, "stock" a stock keyword. -/
def witnessCfg : MarketClassifier.Config :=
  { niche_keywords := ["fraud".toList], stock_keywords := ["stock".toList],
    exclude_keywords := ["crypto".toList], max_years_ahead := 1,
    niche_max_volume := some 1000 }

/-- C3 witness: exclusion dominance applied to a concrete text matching
the exclude keyword "crypto", the niche keyword "fraud" and the stock
keyword "stock", with a volume below the niche cap. -/
theorem classify_exclusion_dominance_witness :
    (MarketClassifier.classify witnessCfg 2024
        (some "crypto stock fraud market".toList) (some 10)).is_excluded = true ∧
      (MarketClassifier.classify witnessCfg 2024
        (some "crypto stock fraud market".toList) (some 10)).is_niche = false ∧
      (MarketClassifier.classify witnessCfg 2024
        (some "crypto stock fraud market".toList) (some 10)).is_stock = false :=
  ⟨by decide,
    classify_exclusion_dominance witnessCfg 2024
      (some "crypto stock fraud market".toList) (some 10) (by decide)⟩

/-- Concrete classifier configuration for C6: "sec" is the only
configured niche keyword. -/
def secCfg : MarketClassifier.Config :=
  { niche_keywords := ["sec".toList], stock_keywords := [],
    exclude_keywords := [], max_years_ahead := 1, niche_max_volume := none }

/-- C6 (code bug): the alphanumeric length-3 term "sec" does NOT match
the text "sec charges coming" even though it occurs there as a whole
word, so `classify` reports no niche match; the raw f-string pattern
`rf"\\b...\\b"` actually requires the text to contain a literal
backslash-b on both sides of the term, as the last conjunct shows. -/
theorem term_word_boundary_code_bug :
    MarketClassifier.term_in_text "sec".toList "sec charges coming".toList
        = false ∧
      (MarketClassifier.classify secCfg 2024
        (some "sec charges coming".toList) none).matched_niche = [] ∧
      (MarketClassifier.classify secCfg 2024
        (some "sec charges coming".toList) none).is_niche = false ∧
      MarketClassifier.term_in_text "sec".toList "x \\bsec\\b y".toList = true := by
  decide

/-- Whitespace trim of both ends, embedding Python `str.strip()`. -/
def stripStr (s : Str) : Str :=
  ((s.dropWhile Char.isWhitespace).reverse.dropWhile Char.isWhitespace).reverse

/-- Removal of every whitespace character, embedding the Python idiom
`"".join(s.split())`. -/
def stripAllWhitespace (s : Str) : Str := s.filter (fun c => !c.isWhitespace)

/-- Embedding of `looks_like_rsa_private_key` (`ingest/kalshi_ingest.py`
lines 194-199): a key looks like RSA when its trimmed text contains a PEM
marker, or its whitespace-free form is longer than 128 characters. -/
def looks_like_rsa_private_key (private_key : Str) : Bool :=
  let cleaned := stripStr private_key
  if containsSeq "BEGIN RSA PRIVATE KEY".toList cleaned ||
      containsSeq "BEGIN PRIVATE KEY".toList cleaned then true
  else decide (128 < (stripAllWhitespace cleaned).length)

/-- Embedding of `resolve_kalshi_signing_algo` (`ingest/kalshi_ingest.py`
lines 151-162). -/
def resolve_kalshi_signing_algo (algo private_key : Str) : Str :=
  let cleaned := lowerStr (stripStr algo)
  if cleaned = "rsa-pss".toList ∨ cleaned = "rsa_pss".toList ∨
      cleaned = "rsapss".toList then "rsa-pss".toList
  else if cleaned = "hmac-sha256".toList ∨ cleaned = "ed25519".toList then
    if cleaned = "ed25519".toList ∧ looks_like_rsa_private_key private_key then
      "rsa-pss".toList
    else cleaned
  else if looks_like_rsa_private_key private_key then "rsa-pss".toList
  else "ed25519".toList

/-- Signing method selected by `sign_kalshi_message`. -/
inductive SignMethod where
  | hmacSha256
  | rsaPss
  | ed25519
deriving DecidableEq

/-- Embedding of the algorithm dispatch of `sign_kalshi_message`
(`ingest/kalshi_ingest.py` lines 165-181): the function cleans the
algorithm string, then selects HMAC-SHA256, RSA-PSS or Ed25519 signing,
and raises `ValueError("Unsupported KALSHI_SIGNING_ALGO=...")` for any
other value.  The cryptographic primitives themselves are external
library calls and are abstracted to the selected method. -/
def sign_kalshi_message_algo (algo : Str) : Except Str SignMethod :=
  let a := lowerStr (stripStr algo)
  if a = "hmac-sha256".toList then .ok .hmacSha256
  else if a = "rsa-pss".toList then .ok .rsaPss
  else if a ≠ "ed25519".toList then
    .error ("Unsupported KALSHI_SIGNING_ALGO=".toList ++ a)
  else .ok .ed25519

/-- C8: case analysis of `resolve_kalshi_signing_algo` over the trimmed
lowercased configured value: the rsa-pss spelling variants map to
"rsa-pss"; "hmac-sha256" is returned as is; "ed25519" is returned unless
the key looks like RSA, in which case "rsa-pss" is returned; any other
value falls back to "rsa-pss" when the key looks like RSA and "ed25519"
otherwise. -/
theorem resolve_signing_algo_cases (algo key : Str) :
    (lowerStr (stripStr algo) = "rsa-pss".toList ∨
        lowerStr (stripStr algo) = "rsa_pss".toList ∨
        lowerStr (stripStr algo) = "rsapss".toList →
      resolve_kalshi_signing_algo algo key = "rsa-pss".toList) ∧
    (lowerStr (stripStr algo) = "hmac-sha256".toList →
      resolve_kalshi_signing_algo algo key = "hmac-sha256".toList) ∧
    (lowerStr (stripStr algo) = "ed25519".toList →
      looks_like_rsa_private_key key = false →
      resolve_kalshi_signing_algo algo key = "ed25519".toList) ∧
    (lowerStr (stripStr algo) = "ed25519".toList →
      looks_like_rsa_private_key key = true →
      resolve_kalshi_signing_algo algo key = "rsa-pss".toList) ∧
    (lowerStr (stripStr algo) ≠ "rsa-pss".toList →
      lowerStr (stripStr algo) ≠ "rsa_pss".toList →
      lowerStr (stripStr algo) ≠ "rsapss".toList →
      lowerStr (stripStr algo) ≠ "hmac-sha256".toList →
      lowerStr (stripStr algo) ≠ "ed25519".toList →
      resolve_kalshi_signing_algo algo key =
        (if looks_like_rsa_private_key key then "rsa-pss".toList
          else "ed25519".toList)) := by
  unfold resolve_kalshi_signing_algo
  refine ⟨fun h => ?_, fun h => ?_, fun h hk => ?_, fun h hk => ?_,
    fun h1 h2 h3 h4 h5 => ?_⟩
  · rw [if_pos h]
  · rw [if_neg, if_pos (Or.inl h), if_neg]
    · exact h
    · rintro ⟨he, -⟩
      rw [h] at he
      exact absurd he (by decide)
    · rw [h]
      decide
  · rw [if_neg, if_pos (Or.inr h), if_neg]
    · exact h
    · rintro ⟨-, hrsa⟩
      simp [hk] at hrsa
    · rw [h]
      decide
  · rw [if_neg, if_pos (Or.inr h), if_pos ⟨h, hk⟩]
    rw [h]
    decide
  · rw [if_neg, if_neg]
    · rintro (h | h) <;> [exact h4 h; exact h5 h]
    · rintro (h | h | h) <;> [exact h1 h; exact h2 h; exact h3 h]

/-- C8 witness: the case analysis applied to the concrete configured
value "ed25519" with a short non-PEM key, yielding "ed25519". -/
theorem resolve_signing_algo_cases_witness :
    resolve_kalshi_signing_algo "ed25519".toList "abc123".toList =
      "ed25519".toList :=
  (resolve_signing_algo_cases "ed25519".toList "abc123".toList).2.2.1
    (by decide) (by decide)

/-- C9: the dispatch of `sign_kalshi_message` fails exactly when the
cleaned algorithm string is outside the set containing "hmac-sha256",
"rsa-pss" and "ed25519"; in particular, for algorithm strings in that
set it never fails, and it never fails on any output of
`resolve_kalshi_signing_algo`, so the unsupported-algorithm error branch
is unreachable from the resolver. -/
theorem sign_unsupported_error_unreachable :
    (∀ a : Str, (sign_kalshi_message_algo a).isOk = false ↔
      ¬(lowerStr (stripStr a) = "hmac-sha256".toList ∨
        lowerStr (stripStr a) = "rsa-pss".toList ∨
        lowerStr (stripStr a) = "ed25519".toList)) ∧
    (∀ a : Str, a = "hmac-sha256".toList ∨ a = "rsa-pss".toList ∨
        a = "ed25519".toList → ∃ m, sign_kalshi_message_algo a = Except.ok m) ∧
    ∀ algo key : Str, ∃ m,
      sign_kalshi_message_algo (resolve_kalshi_signing_algo algo key) =
        Except.ok m := by
  have hok : ∀ a : Str, a = "hmac-sha256".toList ∨ a = "rsa-pss".toList ∨
      a = "ed25519".toList → ∃ m, sign_kalshi_message_algo a = Except.ok m := by
    rintro a (rfl | rfl | rfl)
    · exact ⟨.hmacSha256, rfl⟩
    · exact ⟨.rsaPss, rfl⟩
    · exact ⟨.ed25519, rfl⟩
  refine ⟨fun a => ?_, hok, fun algo key => ?_⟩
  · unfold sign_kalshi_message_algo
    by_cases h1 : lowerStr (stripStr a) = "hmac-sha256".toList
    · rw [if_pos h1]
      exact ⟨fun hc => absurd hc (by decide), fun hc => absurd (Or.inl h1) hc⟩
    · rw [if_neg h1]
      by_cases h2 : lowerStr (stripStr a) = "rsa-pss".toList
      · rw [if_pos h2]
        exact ⟨fun hc => absurd hc (by decide),
          fun hc => absurd (Or.inr (Or.inl h2)) hc⟩
      · rw [if_neg h2]
        by_cases h3 : lowerStr (stripStr a) = "ed25519".toList
        · rw [if_neg (not_not_intro h3)]
          exact ⟨fun hc => absurd hc (by decide),
            fun hc => absurd (Or.inr (Or.inr h3)) hc⟩
        · rw [if_pos h3]
          refine ⟨fun _ => ?_, fun _ => rfl⟩
          rintro (h | h | h) <;> [exact h1 h; exact h2 h; exact h3 h]
  · have hmem : resolve_kalshi_signing_algo algo key = "hmac-sha256".toList ∨
        resolve_kalshi_signing_algo algo key = "rsa-pss".toList ∨
        resolve_kalshi_signing_algo algo key = "ed25519".toList := by
      unfold resolve_kalshi_signing_algo
      by_cases hA : lowerStr (stripStr algo) = "rsa-pss".toList ∨
          lowerStr (stripStr algo) = "rsa_pss".toList ∨
          lowerStr (stripStr algo) = "rsapss".toList
      · rw [if_pos hA]
        exact Or.inr (Or.inl rfl)
      · rw [if_neg hA]
        by_cases hB : lowerStr (stripStr algo) = "hmac-sha256".toList ∨
            lowerStr (stripStr algo) = "ed25519".toList
        · rw [if_pos hB]
          by_cases hC : lowerStr (stripStr algo) = "ed25519".toList ∧
              looks_like_rsa_private_key key = true
          · rw [if_pos hC]
            exact Or.inr (Or.inl rfl)
          · rw [if_neg hC]
            rcases hB with h | h
            · exact Or.inl h
            · exact Or.inr (Or.inr h)
        · rw [if_neg hB]
          by_cases hD : looks_like_rsa_private_key key = true
          · rw [if_pos hD]
            exact Or.inr (Or.inl rfl)
          · rw [if_neg hD]
            exact Or.inr (Or.inr rfl)
    exact hok _ hmem

/-- C9 witness: the dispatch succeeds on the resolver output for a
concrete unrecognized configured algorithm and a short key. -/
theorem sign_unsupported_error_unreachable_witness :
    ∃ m, sign_kalshi_message_algo
        (resolve_kalshi_signing_algo "foo".toList "k".toList) = Except.ok m :=
  sign_unsupported_error_unreachable.2.2 "foo".toList "k".toList

/-- Python truthiness of an optional float: `None` and `0.0` are falsy. -/
def qTruthy : Option ℚ → Bool
  | none => false
  | some q => decide (q ≠ 0)

/-- Embedding of `backfill_trade_numbers` (`ingest/ingest_utils.py`
lines 111-120): when `size_usd > 0` and exactly one of price/quantity is
a truthy number, the missing one is back-filled by division. -/
def backfill_trade_numbers (size_usd : ℚ) (price quantity : Option ℚ) :
    Option ℚ × Option ℚ :=
  if size_usd ≤ 0 then (price, quantity)
  else
    let price1 :=
      if price = none ∧ qTruthy quantity then some (size_usd / quantity.getD 0)
      else price
    let quantity1 :=
      if quantity = none ∧ qTruthy price1 then some (size_usd / price1.getD 0)
      else quantity
    (price1, quantity1)

/-- C10: `backfill_trade_numbers` is total and only ever divides by a
provided nonzero counterpart: inputs pass through unchanged when
`size_usd ≤ 0`, when both price and quantity are present, when both are
absent, or when the single provided counterpart is 0; when `size_usd > 0`
and exactly one is provided and nonzero, the other is back-filled as the
quotient by that nonzero value. -/
theorem backfill_trade_numbers_total (size_usd : ℚ) (price quantity : Option ℚ) :
    (size_usd ≤ 0 →
      backfill_trade_numbers size_usd price quantity = (price, quantity)) ∧
    (∀ p q : ℚ, price = some p → quantity = some q →
      backfill_trade_numbers size_usd price quantity = (price, quantity)) ∧
    (price = none → quantity = none →
      backfill_trade_numbers size_usd price quantity = (price, quantity)) ∧
    (price = none → quantity = some 0 →
      backfill_trade_numbers size_usd price quantity = (price, quantity)) ∧
    (quantity = none → price = some 0 →
      backfill_trade_numbers size_usd price quantity = (price, quantity)) ∧
    (∀ q : ℚ, 0 < size_usd → price = none → quantity = some q → q ≠ 0 →
      backfill_trade_numbers size_usd price quantity =
        (some (size_usd / q), some q)) ∧
    (∀ p : ℚ, 0 < size_usd → quantity = none → price = some p → p ≠ 0 →
      backfill_trade_numbers size_usd price quantity =
        (some p, some (size_usd / p))) := by
  refine ⟨fun h => ?_, fun p q hp hq => ?_, fun hp hq => ?_, fun hp hq => ?_,
    fun hq hp => ?_, fun q hs hp hq hq0 => ?_, fun p hs hq hp hp0 => ?_⟩ <;>
    simp_all [backfill_trade_numbers, qTruthy, not_le.mpr]

/-- C10 witness: back-filling applied to a concrete positive size with a
provided nonzero quantity, and to the pass-through case of size 0. -/
theorem backfill_trade_numbers_total_witness :
    backfill_trade_numbers 10 none (some 4) = (some (5 / 2), some 4) ∧
      backfill_trade_numbers 0 (some 3) none = (some 3, none) :=
  ⟨by
      have h := (backfill_trade_numbers_total 10 none (some 4)).2.2.2.2.2.1 4
        (by norm_num) rfl rfl (by norm_num)
      rw [h]
      norm_num,
    (backfill_trade_numbers_total 0 (some 3) none).1 le_rfl⟩

/-- State of `SlidingWindowSum` (`ingest/ingest_flow.py` lines 42-46):
a FIFO of `(timestamp, value)` pairs with an incrementally maintained
total. -/
structure SlidingWindowSum where
  max_age_seconds : ℚ
  items : List (ℚ × ℚ)
  total : ℚ
deriving DecidableEq

/-- Embedding of `SlidingWindowSum.prune` (`ingest/ingest_flow.py` lines
54-58): pop from the front while the front is older than the cutoff,
subtracting each popped value from the total; the while loop is rendered
by the takeWhile/dropWhile split at the first fresh-enough item. -/
def SlidingWindowSum.prune (w : SlidingWindowSum) (now : ℚ) : SlidingWindowSum :=
  let cutoff := now - w.max_age_seconds
  { w with
      items := w.items.dropWhile (fun p => decide (p.1 < cutoff)),
      total := w.total - ((w.items.takeWhile (fun p => decide (p.1 < cutoff))).map Prod.snd).sum }

/-- Embedding of `SlidingWindowSum.add` (`ingest/ingest_flow.py` lines
48-52): append, add to the total, prune at the new timestamp, return the
total. -/
def SlidingWindowSum.add (w : SlidingWindowSum) (timestamp value : ℚ) :
    SlidingWindowSum × ℚ :=
  let w1 := SlidingWindowSum.prune
    { w with items := w.items ++ [(timestamp, value)], total := w.total + value }
    timestamp
  (w1, w1.total)

/-- Record kept by the trade window, embedding `TradeRecord`
(`ingest/ingest_flow.py` lines 32-39). -/
structure TradeRecord where
  timestamp : ℚ
  platform : Str
  market : Str
  size_usd : ℚ
  side : Str
  actor_address : Option Str
deriving DecidableEq

/-- State of `TradeWindow` (`ingest/ingest_flow.py` lines 61-64). -/
structure TradeWindow where
  max_age_seconds : ℚ
  items : List TradeRecord
deriving DecidableEq

/-- Embedding of `TradeWindow.prune` (`ingest/ingest_flow.py` lines
70-73). -/
def TradeWindow.prune (w : TradeWindow) (now : ℚ) : TradeWindow :=
  { w with items := w.items.dropWhile (fun r => decide (r.timestamp < now - w.max_age_seconds)) }

/-- Embedding of `TradeWindow.add` (`ingest/ingest_flow.py` lines
66-68). -/
def TradeWindow.add (w : TradeWindow) (record : TradeRecord) : TradeWindow :=
  TradeWindow.prune { w with items := w.items ++ [record] } record.timestamp

/-- State of `RollingStatsWindow` (`ingest/ingest_flow.py` lines 76-82):
FIFO of `(timestamp, value)` pairs with running sum and sum of squares. -/
structure RollingStatsWindow where
  max_age_seconds : ℚ
  min_samples : Nat
  items : List (ℚ × ℚ)
  sum : ℚ
  sum_sq : ℚ
deriving DecidableEq

/-- Embedding of `RollingStatsWindow.prune` (`ingest/ingest_flow.py`
lines 98-103): pop from the front while stale, subtracting value and
squared value from the running aggregates. -/
def RollingStatsWindow.prune (w : RollingStatsWindow) (now : ℚ) :
    RollingStatsWindow :=
  let cutoff := now - w.max_age_seconds
  let dropped := w.items.takeWhile (fun p => decide (p.1 < cutoff))
  { w with
      items := w.items.dropWhile (fun p => decide (p.1 < cutoff)),
      sum := w.sum - (dropped.map Prod.snd).sum,
      sum_sq := w.sum_sq - (dropped.map (fun p => p.2 * p.2)).sum }

/-- Mean of the window contents as computed in `RollingStatsWindow.add`
(`ingest/ingest_flow.py` line 92); division by zero never arises in the
source because the count is checked first, and defaults to 0 in ℚ. -/
def RollingStatsWindow.mean (w : RollingStatsWindow) : ℚ :=
  w.sum / w.items.length

/-- Variance of the window contents as computed in
`RollingStatsWindow.add` (`ingest/ingest_flow.py` line 93):
`max(sum_sq / count - mean * mean, 0.0)`. -/
def RollingStatsWindow.variance (w : RollingStatsWindow) : ℚ :=
  max (w.sum_sq / w.items.length - w.mean * w.mean) 0

/-- Embedding of `RollingStatsWindow.add` (`ingest/ingest_flow.py` lines
84-96): append, update aggregates, prune at the new timestamp; yield
nothing below `min_samples` or at zero variance, else the z-score of the
new value.  The source returns `(value - mean) / variance ** 0.5`; since
square roots leave ℚ, the embedding returns the pair
`(value - mean, variance)`, from which the z-score is
`(value - mean) / Real.sqrt variance`. -/
def RollingStatsWindow.add (w : RollingStatsWindow) (timestamp value : ℚ) :
    RollingStatsWindow × Option (ℚ × ℚ) :=
  let w1 := RollingStatsWindow.prune
    { w with
        items := w.items ++ [(timestamp, value)],
        sum := w.sum + value,
        sum_sq := w.sum_sq + value * value } timestamp
  if w1.items.length < w.min_samples then (w1, none)
  else if w1.variance ≤ 0 then (w1, none)
  else (w1, some (value - w1.mean, w1.variance))

/-- Well-formedness of a `SlidingWindowSum` state: the incrementally
maintained total equals the sum of the retained values. -/
def SlidingWindowSum.WF (w : SlidingWindowSum) : Prop :=
  w.total = (w.items.map Prod.snd).sum

/-- Well-formedness of a `RollingStatsWindow` state: the incrementally
maintained aggregates equal the sums over the retained items. -/
def RollingStatsWindow.WF (w : RollingStatsWindow) : Prop :=
  w.sum = (w.items.map Prod.snd).sum ∧
    w.sum_sq = (w.items.map (fun p => p.2 * p.2)).sum

/-- Splitting a mapped sum at the takeWhile/dropWhile boundary. -/
theorem sum_map_takeWhile_dropWhile {α : Type} (f : α → ℚ) (p : α → Bool)
    (l : List α) :
    ((l.takeWhile p).map f).sum + ((l.dropWhile p).map f).sum = (l.map f).sum := by
  conv_rhs => rw [← @List.takeWhile_append_dropWhile _ p l]
  rw [List.map_append, List.sum_append]

/-- Front pruning of a list sorted by timestamps retains only items at or
above the cutoff. -/
theorem dropWhile_cutoff_le {α : Type} (ts : α → ℚ) (cutoff : ℚ) (l : List α)
    (hsort : l.Pairwise (fun a b => ts a ≤ ts b)) :
    ∀ x ∈ l.dropWhile (fun a => decide (ts a < cutoff)), cutoff ≤ ts x := by
  induction l with
  | nil => intro x hx; simp at hx
  | cons a rest ih =>
      rw [List.pairwise_cons] at hsort
      by_cases h : ts a < cutoff
      · rw [List.dropWhile_cons_of_pos (by simpa using h)]
        exact ih hsort.2
      · rw [List.dropWhile_cons_of_neg (by simpa using h)]
        intro x hx
        rcases List.mem_cons.mp hx with rfl | hx
        · exact not_lt.mp h
        · exact le_trans (not_lt.mp h) (hsort.1 x hx)

/-- Appending an item whose timestamp dominates a sorted list keeps the
list sorted. -/
theorem pairwise_append_last {α : Type} (ts : α → ℚ) (l : List α) (x : α)
    (hsort : l.Pairwise (fun a b => ts a ≤ ts b))
    (hle : ∀ a ∈ l, ts a ≤ ts x) :
    (l ++ [x]).Pairwise (fun a b => ts a ≤ ts b) := by
  rw [List.pairwise_append]
  refine ⟨hsort, List.pairwise_singleton _ _, fun a ha b hb => ?_⟩
  rw [List.mem_singleton] at hb
  subst hb
  exact hle a ha

/-- Pruning preserves well-formedness of a `SlidingWindowSum`. -/
theorem slidingPrune_WF (w : SlidingWindowSum) (now : ℚ)
    (h : w.WF) : (w.prune now).WF := by
  unfold SlidingWindowSum.prune SlidingWindowSum.WF at *
  dsimp only
  have hsplit := sum_map_takeWhile_dropWhile Prod.snd
    (fun p : ℚ × ℚ => decide (p.1 < now - w.max_age_seconds)) w.items
  linarith

/-- Adding preserves well-formedness of a `SlidingWindowSum`. -/
theorem slidingAdd_WF (w : SlidingWindowSum) (t v : ℚ)
    (h : w.WF) : (w.add t v).1.WF := by
  unfold SlidingWindowSum.add
  dsimp only
  apply slidingPrune_WF
  unfold SlidingWindowSum.WF at *
  simp [h]

/-- Pruning preserves well-formedness of a `RollingStatsWindow`. -/
theorem rollingPrune_WF (w : RollingStatsWindow) (now : ℚ)
    (h : w.WF) : (w.prune now).WF := by
  obtain ⟨h1, h2⟩ := h
  unfold RollingStatsWindow.prune RollingStatsWindow.WF
  dsimp only
  constructor
  · have hsplit := sum_map_takeWhile_dropWhile Prod.snd
      (fun p : ℚ × ℚ => decide (p.1 < now - w.max_age_seconds)) w.items
    linarith
  · have hsplit := sum_map_takeWhile_dropWhile (fun p : ℚ × ℚ => p.2 * p.2)
      (fun p : ℚ × ℚ => decide (p.1 < now - w.max_age_seconds)) w.items
    linarith

/-- The post-add window state of `RollingStatsWindow.add`. -/
theorem RollingStatsWindow.add_fst (w : RollingStatsWindow) (t v : ℚ) :
    (w.add t v).1 = RollingStatsWindow.prune
      { w with
          items := w.items ++ [(t, v)],
          sum := w.sum + v,
          sum_sq := w.sum_sq + v * v } t := by
  unfold RollingStatsWindow.add
  dsimp only
  split
  · rfl
  · split <;> rfl

/-- Adding preserves well-formedness of a `RollingStatsWindow`. -/
theorem rollingAdd_WF (w : RollingStatsWindow) (t v : ℚ)
    (h : w.WF) : (w.add t v).1.WF := by
  rw [RollingStatsWindow.add_fst]
  apply rollingPrune_WF
  obtain ⟨h1, h2⟩ := h
  unfold RollingStatsWindow.WF
  constructor <;> simp [h1, h2]

/-- C5 counterexample: with out-of-order timestamps the pruning claim
fails.  Window of 10 seconds; adds at timestamps 100, 50, 100: after the
final add (t = 100) the window still contains the item with timestamp 50
even though 50 < t - window = 90, because pruning only pops from the
front and the front item (timestamp 100) is fresh. -/
theorem window_prune_counterexample :
    ((((SlidingWindowSum.mk 10 [] 0).add 100 1).1.add 50 1).1.add 100 1).1.items =
        [(100, 1), (50, 1), (100, 1)] ∧ (50 : ℚ) < 100 - 10 := by
  constructor
  · norm_num [SlidingWindowSum.add, SlidingWindowSum.prune, List.dropWhile,
      List.takeWhile]
  · norm_num

/-- C5 (amended): for `SlidingWindowSum`, `TradeWindow` and
`RollingStatsWindow`, the incrementally maintained aggregates always
equal the corresponding sums over exactly the retained items (preserved
by every add, even with out-of-order timestamps); and when the buffered
timestamps are non-decreasing and the new timestamp is at least every
buffered one, after `add` the window retains only items with timestamp
at least `t - window`.  With out-of-order arrivals the retention bound
can fail (see the counterexample). -/
theorem window_prune_amended :
    (∀ (w : SlidingWindowSum) (t v : ℚ),
      (w.WF → (w.add t v).1.WF) ∧
      (w.items.Pairwise (fun a b => a.1 ≤ b.1) → (∀ p ∈ w.items, p.1 ≤ t) →
        ∀ p ∈ (w.add t v).1.items, t - w.max_age_seconds ≤ p.1)) ∧
    (∀ (w : TradeWindow) (r : TradeRecord),
      w.items.Pairwise (fun a b => a.timestamp ≤ b.timestamp) →
      (∀ x ∈ w.items, x.timestamp ≤ r.timestamp) →
      ∀ x ∈ (w.add r).items, r.timestamp - w.max_age_seconds ≤ x.timestamp) ∧
    (∀ (w : RollingStatsWindow) (t v : ℚ),
      (w.WF → (w.add t v).1.WF) ∧
      (w.items.Pairwise (fun a b => a.1 ≤ b.1) → (∀ p ∈ w.items, p.1 ≤ t) →
        ∀ p ∈ (w.add t v).1.items, t - w.max_age_seconds ≤ p.1)) := by
  refine ⟨fun w t v => ⟨slidingAdd_WF w t v, fun hsort hle => ?_⟩,
    fun w r hsort hle => ?_, fun w t v =>
      ⟨rollingAdd_WF w t v, fun hsort hle => ?_⟩⟩
  · unfold SlidingWindowSum.add SlidingWindowSum.prune
    dsimp only
    exact dropWhile_cutoff_le Prod.fst (t - w.max_age_seconds) _
      (pairwise_append_last Prod.fst w.items (t, v) hsort hle)
  · unfold TradeWindow.add TradeWindow.prune
    dsimp only
    exact dropWhile_cutoff_le TradeRecord.timestamp
      (r.timestamp - w.max_age_seconds) _
      (pairwise_append_last TradeRecord.timestamp w.items r hsort hle)
  · rw [RollingStatsWindow.add_fst]
    unfold RollingStatsWindow.prune
    dsimp only
    exact dropWhile_cutoff_le Prod.fst (t - w.max_age_seconds) _
      (pairwise_append_last Prod.fst w.items (t, v) hsort hle)

/-- C5 witness: the amended window theorem applied to concrete
well-formed sorted windows with a dominating new timestamp. -/
theorem window_prune_amended_witness :
    ((SlidingWindowSum.mk 10 [(1, 2)] 2).add 5 3).1.WF ∧
      (∀ p ∈ ((SlidingWindowSum.mk 10 [(1, 2)] 2).add 5 3).1.items,
        (5 : ℚ) - 10 ≤ p.1) ∧
      ((RollingStatsWindow.mk 10 2 [(1, 2)] 2 4).add 5 3).1.WF ∧
      (∀ x ∈ ((TradeWindow.mk 10 []).add
          (TradeRecord.mk 5 "kalshi".toList "m".toList 200 "yes".toList none)).items,
        (5 : ℚ) - 10 ≤ x.timestamp) :=
  ⟨(window_prune_amended.1 (SlidingWindowSum.mk 10 [(1, 2)] 2) 5 3).1
      (by norm_num [SlidingWindowSum.WF]),
    (window_prune_amended.1 (SlidingWindowSum.mk 10 [(1, 2)] 2) 5 3).2
      (by simp) (by norm_num),
    (window_prune_amended.2.2 (RollingStatsWindow.mk 10 2 [(1, 2)] 2 4) 5 3).1
      (by norm_num [RollingStatsWindow.WF]),
    window_prune_amended.2.1 (TradeWindow.mk 10 [])
      (TradeRecord.mk 5 "kalshi".toList "m".toList 200 "yes".toList none)
      (by simp) (by simp)⟩

/-- Lookup in an association list, embedding Python dict `.get`. -/
def lookupAssoc {κ α : Type} [DecidableEq κ] : List (κ × α) → κ → Option α
  | [], _ => none
  | (k, v) :: rest, key => if k = key then some v else lookupAssoc rest key

/-- Update or insert a key in an association list, embedding Python dict
assignment. -/
def setAssoc {κ α : Type} [DecidableEq κ] : List (κ × α) → κ → α → List (κ × α)
  | [], key, v => [(key, v)]
  | (k, w) :: rest, key, v =>
      if k = key then (key, v) :: rest else (k, w) :: setAssoc rest key v

/-- Setting a key makes it found with the new value. -/
theorem lookupAssoc_setAssoc {κ α : Type} [DecidableEq κ] (l : List (κ × α))
    (k : κ) (v : α) : lookupAssoc (setAssoc l k v) k = some v := by
  induction l with
  | nil => simp [setAssoc, lookupAssoc]
  | cons a rest ih =>
      obtain ⟨ka, va⟩ := a
      by_cases h : ka = k
      · simp [setAssoc, lookupAssoc, h]
      · simp [setAssoc, lookupAssoc, h, ih]

/-- State of `ZScoreDetector` (`ingest/ingest_flow.py` lines 106-115):
per-`(platform, market)` rolling windows and last alert timestamps. -/
structure ZScoreDetector where
  window_seconds : ℚ
  threshold : ℚ
  min_samples : Nat
  cooldown_seconds : ℚ
  windows : List ((Str × Str) × RollingStatsWindow)
  last_alert : List ((Str × Str) × ℚ)

/-- Window for a key, embedding the get-or-create step of
`ZScoreDetector.add_trade` (`ingest/ingest_flow.py` lines 118-122). -/
def ZScoreDetector.getWindow (d : ZScoreDetector) (platform market : Str) :
    RollingStatsWindow :=
  (lookupAssoc d.windows (platform, market)).getD
    { max_age_seconds := d.window_seconds,
      min_samples := d.min_samples,
      items := [],
      sum := 0,
      sum_sq := 0 }

/-- Decidable rendering of the comparison `zscore >= threshold` of
`ZScoreDetector.add_trade` (`ingest/ingest_flow.py` line 127), where the
z-score is `d / sqrt v` with `d = value - mean` and `v = variance > 0`;
square roots leave ℚ, so the comparison is decided by sign analysis and
squaring, proved equivalent to the real comparison in `zGE_iff`. -/
def zGE (d v θ : ℚ) : Bool :=
  if 0 < θ then decide (0 ≤ d) && decide (θ * θ * v ≤ d * d)
  else decide (0 ≤ d) || decide (d * d ≤ θ * θ * v)

/-- Embedding of `ZScoreDetector.add_trade` (`ingest/ingest_flow.py`
lines 117-135), returning the new detector state and whether the
z-score spike alert fired (the source emits the alert as a log line). -/
def ZScoreDetector.add_trade (d : ZScoreDetector) (platform market : Str)
    (timestamp size_usd : ℚ) : ZScoreDetector × Bool :=
  let key := (platform, market)
  let window := d.getWindow platform market
  let w1 := (window.add timestamp size_usd).1
  let res := (window.add timestamp size_usd).2
  let d1 := { d with windows := setAssoc d.windows key w1 }
  match res with
  | none => (d1, false)
  | some dv =>
      let last := (lookupAssoc d.last_alert key).getD 0
      if zGE dv.1 dv.2 d.threshold ∧ d.cooldown_seconds ≤ timestamp - last then
        ({ d1 with last_alert := setAssoc d.last_alert key timestamp }, true)
      else (d1, false)

/-- Decomposition of `RollingStatsWindow.add` into post-state and
result. -/
theorem RollingStatsWindow.add_eq (w : RollingStatsWindow) (t v : ℚ) :
    w.add t v =
      ((w.add t v).1,
        if (w.add t v).1.items.length < w.min_samples then none
        else if (w.add t v).1.variance ≤ 0 then none
        else some (v - (w.add t v).1.mean, (w.add t v).1.variance)) := by
  rw [RollingStatsWindow.add_fst]
  unfold RollingStatsWindow.add
  dsimp only
  split
  · rfl
  · split <;> rfl

/-- Variance is zero when every buffered value is equal (over exact
rational arithmetic). -/
theorem RollingStatsWindow.variance_eq_zero_of_const (w : RollingStatsWindow)
    (hwf : w.WF) (hc : ∀ p ∈ w.items, ∀ q ∈ w.items, p.2 = q.2) :
    w.variance = 0 := by
  obtain ⟨h1, h2⟩ := hwf
  rcases hn : w.items with _ | ⟨a, rest⟩
  · rw [hn] at h1 h2
    simp at h1 h2
    unfold RollingStatsWindow.variance RollingStatsWindow.mean
    rw [hn, h1, h2]
    norm_num
  · have hmem : ∀ p ∈ w.items, p.2 = a.2 := fun p hp =>
      hc p hp a (hn ▸ List.mem_cons_self a rest)
    have hn0 : (w.items.length : ℚ) ≠ 0 := by
      rw [hn]
      have hge : (0 : ℚ) ≤ (rest.length : ℚ) := Nat.cast_nonneg rest.length
      intro hcontra
      rw [List.length_cons] at hcontra
      push_cast at hcontra
      linarith
    have hsum : w.sum = (w.items.length : ℚ) * a.2 := by
      rw [h1]
      have hall : ∀ b ∈ w.items.map Prod.snd, b = a.2 := by
        intro b hb
        obtain ⟨p, hp, rfl⟩ := List.mem_map.mp hb
        exact hmem p hp
      rw [List.eq_replicate_of_mem hall, List.sum_replicate, List.length_map,
        nsmul_eq_mul]
    have hsumsq : w.sum_sq = (w.items.length : ℚ) * (a.2 * a.2) := by
      rw [h2]
      have hall : ∀ b ∈ w.items.map (fun p => p.2 * p.2), b = a.2 * a.2 := by
        intro b hb
        obtain ⟨p, hp, rfl⟩ := List.mem_map.mp hb
        rw [hmem p hp]
      rw [List.eq_replicate_of_mem hall, List.sum_replicate, List.length_map,
        nsmul_eq_mul]
    unfold RollingStatsWindow.variance RollingStatsWindow.mean
    rw [hsum, hsumsq, mul_div_cancel_left₀ _ hn0, mul_div_cancel_left₀ _ hn0]
    simp

/-- Comparison of nonnegative reals via their squares. -/
theorem mul_self_le_mul_self_iff_nonneg (a b : ℝ) (ha : 0 ≤ a) (hb : 0 ≤ b) :
    a * a ≤ b * b ↔ a ≤ b := by
  constructor
  · intro h
    nlinarith
  · intro h
    nlinarith

/-- Equivalence between the decidable comparison `zGE` and the real
z-score comparison for positive variance. -/
theorem zGE_iff (d v θ : ℚ) (hv : 0 < v) :
    zGE d v θ = true ↔ (θ : ℝ) ≤ (d : ℝ) / Real.sqrt (v : ℝ) := by
  have hv' : (0 : ℝ) < (v : ℝ) := by exact_mod_cast hv
  have hs : 0 < Real.sqrt (v : ℝ) := Real.sqrt_pos.mpr hv'
  have hs2 : Real.sqrt (v : ℝ) * Real.sqrt (v : ℝ) = (v : ℝ) :=
    Real.mul_self_sqrt hv'.le
  have hu2 : ((θ : ℝ) * Real.sqrt (v : ℝ)) * ((θ : ℝ) * Real.sqrt (v : ℝ)) =
      (θ : ℝ) * (θ : ℝ) * (v : ℝ) := by
    rw [mul_mul_mul_comm, hs2]
  rw [le_div_iff₀ hs]
  unfold zGE
  by_cases hθ : 0 < θ
  · have hθ' : (0 : ℝ) < (θ : ℝ) := by exact_mod_cast hθ
    have hu : (0 : ℝ) ≤ (θ : ℝ) * Real.sqrt (v : ℝ) := (mul_pos hθ' hs).le
    rw [if_pos hθ]
    rw [Bool.and_eq_true, decide_eq_true_eq, decide_eq_true_eq]
    constructor
    · intro h
      obtain ⟨hd0, hsq⟩ := h
      have hd0' : (0 : ℝ) ≤ (d : ℝ) := by exact_mod_cast hd0
      have hsq' : (θ : ℝ) * (θ : ℝ) * (v : ℝ) ≤ (d : ℝ) * (d : ℝ) := by
        exact_mod_cast hsq
      rw [← hu2] at hsq'
      exact (mul_self_le_mul_self_iff_nonneg _ _ hu hd0').mp hsq'
    · intro h
      have hd0' : (0 : ℝ) ≤ (d : ℝ) := le_trans hu h
      have hsq' : ((θ : ℝ) * Real.sqrt (v : ℝ)) * ((θ : ℝ) * Real.sqrt (v : ℝ)) ≤
          (d : ℝ) * (d : ℝ) :=
        (mul_self_le_mul_self_iff_nonneg _ _ hu hd0').mpr h
      rw [hu2] at hsq'
      exact ⟨by exact_mod_cast hd0', by exact_mod_cast hsq'⟩
  · have hθ' : (θ : ℝ) ≤ 0 := by exact_mod_cast not_lt.mp hθ
    have hu : (θ : ℝ) * Real.sqrt (v : ℝ) ≤ 0 :=
      mul_nonpos_iff.mpr (Or.inr ⟨hθ', hs.le⟩)
    rw [if_neg hθ]
    rw [Bool.or_eq_true, decide_eq_true_eq, decide_eq_true_eq]
    constructor
    · rintro (hd0 | hsq)
      · have hd0' : (0 : ℝ) ≤ (d : ℝ) := by exact_mod_cast hd0
        linarith
      · by_cases hd0 : (0 : ℝ) ≤ (d : ℝ)
        · linarith
        · push_neg at hd0
          have hsq' : (d : ℝ) * (d : ℝ) ≤
              ((θ : ℝ) * Real.sqrt (v : ℝ)) * ((θ : ℝ) * Real.sqrt (v : ℝ)) := by
            rw [hu2]
            exact_mod_cast hsq
          have hneg : (-(d : ℝ)) * (-(d : ℝ)) ≤
              (-((θ : ℝ) * Real.sqrt (v : ℝ))) * (-((θ : ℝ) * Real.sqrt (v : ℝ))) := by
            nlinarith [hsq']
          have := (mul_self_le_mul_self_iff_nonneg _ _ (by linarith) (by linarith)).mp hneg
          linarith
    · intro h
      by_cases hd0 : (0 : ℚ) ≤ d
      · exact Or.inl hd0
      · right
        have hd0' : (d : ℝ) < 0 := by exact_mod_cast not_le.mp hd0
        have hneg : (-(d : ℝ)) * (-(d : ℝ)) ≤
            (-((θ : ℝ) * Real.sqrt (v : ℝ))) * (-((θ : ℝ) * Real.sqrt (v : ℝ))) :=
          (mul_self_le_mul_self_iff_nonneg _ _ (by linarith) (by linarith)).mpr
            (by linarith)
        have hsq' : (d : ℝ) * (d : ℝ) ≤ (θ : ℝ) * (θ : ℝ) * (v : ℝ) := by
          rw [← hu2]
          nlinarith [hneg]
        exact_mod_cast hsq'

/-- C4: z-score gating of `ZScoreDetector.add_trade` on a well-formed
per-`(platform, market)` stream state: no alert while the post-add window
count is below `min_samples`; with all-equal buffered values the variance
is 0 and no alert fires; otherwise an alert fires exactly when
`(x - mean) / sqrt variance >= threshold` and `t - last_alert >= cooldown`,
and the `last_alert` of the key is then set to `t`. -/
theorem zscore_gating (d : ZScoreDetector) (platform market : Str) (t x : ℚ)
    (hwf : (d.getWindow platform market).WF)
    (hm : (d.getWindow platform market).min_samples = d.min_samples) :
    ((d.add_trade platform market t x).2 = true ↔
      (d.min_samples ≤ ((d.getWindow platform market).add t x).1.items.length ∧
        0 < ((d.getWindow platform market).add t x).1.variance ∧
        (d.threshold : ℝ) ≤
          ((x : ℝ) - (((d.getWindow platform market).add t x).1.mean : ℝ)) /
            Real.sqrt (((d.getWindow platform market).add t x).1.variance : ℝ) ∧
        d.cooldown_seconds ≤
          t - ((lookupAssoc d.last_alert (platform, market)).getD 0))) ∧
    (((d.getWindow platform market).add t x).1.items.length < d.min_samples →
      (d.add_trade platform market t x).2 = false) ∧
    ((∀ p ∈ ((d.getWindow platform market).add t x).1.items,
        ∀ q ∈ ((d.getWindow platform market).add t x).1.items, p.2 = q.2) →
      ((d.getWindow platform market).add t x).1.variance = 0 ∧
        (d.add_trade platform market t x).2 = false) ∧
    ((d.add_trade platform market t x).2 = true →
      lookupAssoc (d.add_trade platform market t x).1.last_alert
        (platform, market) = some t) := by
  have hw1WF : ((d.getWindow platform market).add t x).1.WF :=
    rollingAdd_WF _ t x hwf
  by_cases hc1 : ((d.getWindow platform market).add t x).1.items.length <
      (d.getWindow platform market).min_samples
  · have hstep : d.add_trade platform market t x =
        ({ d with
            windows := setAssoc d.windows (platform, market)
              ((d.getWindow platform market).add t x).1 },
          false) := by
      unfold ZScoreDetector.add_trade
      dsimp only
      rw [RollingStatsWindow.add_eq (d.getWindow platform market) t x]
      dsimp only
      rw [if_pos hc1]
    rw [hstep]
    dsimp only
    refine ⟨⟨fun h => absurd h Bool.false_ne_true,
        fun hrhs => absurd hrhs.1 (not_le.mpr (hm ▸ hc1))⟩,
      fun _ => rfl,
      fun hconst =>
        ⟨RollingStatsWindow.variance_eq_zero_of_const _ hw1WF hconst, rfl⟩,
      fun h => absurd h Bool.false_ne_true⟩
  · by_cases hc2 : ((d.getWindow platform market).add t x).1.variance ≤ 0
    · have hstep : d.add_trade platform market t x =
          ({ d with
              windows := setAssoc d.windows (platform, market)
                ((d.getWindow platform market).add t x).1 },
            false) := by
        unfold ZScoreDetector.add_trade
        dsimp only
        rw [RollingStatsWindow.add_eq (d.getWindow platform market) t x]
        dsimp only
        rw [if_neg hc1, if_pos hc2]
      rw [hstep]
      dsimp only
      refine ⟨⟨fun h => absurd h Bool.false_ne_true,
          fun hrhs => absurd hrhs.2.1 (not_lt.mpr hc2)⟩,
        fun _ => rfl,
        fun hconst =>
          ⟨RollingStatsWindow.variance_eq_zero_of_const _ hw1WF hconst, rfl⟩,
        fun h => absurd h Bool.false_ne_true⟩
    · have hvarpos : 0 < ((d.getWindow platform market).add t x).1.variance :=
        not_le.mp hc2
      have hcount : d.min_samples ≤
          ((d.getWindow platform market).add t x).1.items.length := by
        rw [← hm]
        exact not_lt.mp hc1
      have hstep : d.add_trade platform market t x =
          (if zGE (x - ((d.getWindow platform market).add t x).1.mean)
                ((d.getWindow platform market).add t x).1.variance d.threshold ∧
              d.cooldown_seconds ≤
                t - ((lookupAssoc d.last_alert (platform, market)).getD 0) then
            ({ d with
                windows := setAssoc d.windows (platform, market)
                  ((d.getWindow platform market).add t x).1,
                last_alert := setAssoc d.last_alert (platform, market) t },
              true)
          else
            ({ d with
                windows := setAssoc d.windows (platform, market)
                  ((d.getWindow platform market).add t x).1 },
              false)) := by
        unfold ZScoreDetector.add_trade
        dsimp only
        rw [RollingStatsWindow.add_eq (d.getWindow platform market) t x]
        dsimp only
        rw [if_neg hc1, if_neg hc2]
      have hcast : (((x - ((d.getWindow platform market).add t x).1.mean : ℚ)) : ℝ) =
          (x : ℝ) - (((d.getWindow platform market).add t x).1.mean : ℝ) := by
        push_cast
        ring
      rw [hstep]
      by_cases hcond : zGE (x - ((d.getWindow platform market).add t x).1.mean)
            ((d.getWindow platform market).add t x).1.variance d.threshold ∧
          d.cooldown_seconds ≤
            t - ((lookupAssoc d.last_alert (platform, market)).getD 0)
      · rw [if_pos hcond]
        dsimp only
        refine ⟨⟨fun _ => ⟨hcount, hvarpos, ?_, hcond.2⟩, fun _ => rfl⟩,
          fun hlt => absurd hlt (not_lt.mpr hcount),
          fun hconst =>
            absurd (RollingStatsWindow.variance_eq_zero_of_const _ hw1WF hconst)
              (ne_of_gt hvarpos),
          fun _ => lookupAssoc_setAssoc d.last_alert (platform, market) t⟩
        have hz := (zGE_iff _ _ _ hvarpos).mp hcond.1
        rw [hcast] at hz
        exact hz
      · rw [if_neg hcond]
        dsimp only
        refine ⟨⟨fun h => absurd h Bool.false_ne_true, fun hrhs => ?_⟩,
          fun hlt => absurd hlt (not_lt.mpr hcount),
          fun hconst =>
            absurd (RollingStatsWindow.variance_eq_zero_of_const _ hw1WF hconst)
              (ne_of_gt hvarpos),
          fun h => absurd h Bool.false_ne_true⟩
        exfalso
        apply hcond
        refine ⟨(zGE_iff _ _ _ hvarpos).mpr ?_, hrhs.2.2.2⟩
        rw [hcast]
        exact hrhs.2.2.1

/-- Concrete detector for the C4 witness: threshold 1, min samples 2,
cooldown 1, one key holding a single buffered sample (0, 0). -/
def witnessDetector : ZScoreDetector :=
  { window_seconds := 100, threshold := 1, min_samples := 2,
    cooldown_seconds := 1,
    windows := [(("polymarket".toList, "mkt".toList),
      { max_age_seconds := 100, min_samples := 2, items := [(0, 0)],
        sum := 0, sum_sq := 0 })],
    last_alert := [] }

/-- C4 witness: the gating theorem applied to a concrete detector; the
second sample (timestamp 1, value 2) joins the buffered (0, 0), giving
mean 1, variance 1, z-score 1 at threshold 1 with a satisfied cooldown,
so the alert fires. -/
theorem zscore_gating_witness :
    (witnessDetector.add_trade "polymarket".toList "mkt".toList 1 2).2 = true := by
  have hwf : (witnessDetector.getWindow "polymarket".toList "mkt".toList).WF := by
    norm_num [ZScoreDetector.getWindow, lookupAssoc, witnessDetector,
      RollingStatsWindow.WF]
  have hm : (witnessDetector.getWindow "polymarket".toList
      "mkt".toList).min_samples = witnessDetector.min_samples := by
    norm_num [ZScoreDetector.getWindow, lookupAssoc, witnessDetector]
  have hwindow : ((witnessDetector.getWindow "polymarket".toList
        "mkt".toList).add 1 2).1.items = [(0, 0), (1, 2)] ∧
      ((witnessDetector.getWindow "polymarket".toList
        "mkt".toList).add 1 2).1.sum = 2 ∧
      ((witnessDetector.getWindow "polymarket".toList
        "mkt".toList).add 1 2).1.sum_sq = 4 := by
    norm_num [ZScoreDetector.getWindow, lookupAssoc, witnessDetector,
      RollingStatsWindow.add_fst, RollingStatsWindow.prune, List.dropWhile,
      List.takeWhile]
  obtain ⟨hitems, hsum, hsumsq⟩ := hwindow
  have hmean : ((witnessDetector.getWindow "polymarket".toList
      "mkt".toList).add 1 2).1.mean = 1 := by
    unfold RollingStatsWindow.mean
    rw [hsum, hitems]
    norm_num
  have hvar : ((witnessDetector.getWindow "polymarket".toList
      "mkt".toList).add 1 2).1.variance = 1 := by
    unfold RollingStatsWindow.variance RollingStatsWindow.mean
    rw [hsum, hsumsq, hitems]
    norm_num
  refine (zscore_gating witnessDetector "polymarket".toList "mkt".toList 1 2
      hwf hm).1.mpr ⟨?_, ?_, ?_, ?_⟩
  · rw [hitems]
    norm_num [witnessDetector]
  · rw [hvar]
    norm_num
  · rw [hvar, hmean]
    norm_num [Real.sqrt_one, witnessDetector]
  · norm_num [lookupAssoc, witnessDetector]

/-- Embedding of `InMemoryTradeStore.recent_trades` (`store/trade_store.py`
lines 42-63): filter by minimum size, then optionally by `since_ts`, by
lowercased platform membership when the platform list is non-empty
(Python truthiness), and by exact wallet match when the wallet is a
non-empty string; finally reverse the retained insertion-ordered list
and cap at `limit`. -/
def InMemoryTradeStore.recent_trades (s : InMemoryTradeStore) (min_size_usd : ℚ)
    (limit : Nat) (since_ts : Option ℚ) (platforms : List Str)
    (wallet : Option Str) : List Trade :=
  let trades := s.trades.filter (fun trade => decide (min_size_usd ≤ trade.size_usd))
  let trades := match since_ts with
    | none => trades
    | some ts => trades.filter (fun trade => decide (ts ≤ trade.timestamp))
  let trades := if platforms.isEmpty then trades
    else
      let allowed := platforms.map lowerStr
      trades.filter (fun trade => allowed.contains (lowerStr trade.platform))
  let trades := match wallet with
    | none => trades
    | some w =>
        if w.isEmpty then trades
        else trades.filter (fun trade => decide (trade.actor_address = some w))
  trades.reverse.take limit

/-- WHERE predicate of the SQL `recent_trades` queries
(`store/trade_store.py` lines 301-312 and 627-638): the conjunction of
the conditionally appended clauses, a clause being vacuously true when
its argument is absent. -/
def sqlWherePred (min_size_usd : ℚ) (since_ts : Option ℚ)
    (platforms : List Str) (wallet : Option Str) (trade : Trade) : Bool :=
  decide (min_size_usd ≤ trade.size_usd) &&
    (match since_ts with
      | none => true
      | some ts => decide (ts ≤ trade.timestamp)) &&
    (platforms.isEmpty ||
      (platforms.map lowerStr).contains (lowerStr trade.platform)) &&
    (match wallet with
      | none => true
      | some w => w.isEmpty || decide (trade.actor_address = some w))

/-- Descending-timestamp ordering used to model `ORDER BY timestamp DESC`. -/
def tsGE (a b : Trade) : Prop := b.timestamp ≤ a.timestamp

instance instDecTsGE : DecidableRel tsGE := fun a b =>
  if h : b.timestamp ≤ a.timestamp then .isTrue h else .isFalse h

instance instTotalTsGE : IsTotal Trade tsGE :=
  ⟨fun a b => le_total b.timestamp a.timestamp⟩

instance instTransTsGE : IsTrans Trade tsGE :=
  ⟨fun _ _ _ hab hbc => le_trans hbc hab⟩

/-- Embedding of `SqliteTradeStore.recent_trades` (`store/trade_store.py`
lines 293-344): `SELECT ... WHERE <clauses> ORDER BY timestamp DESC
LIMIT ?`, with the ordering modelled as a stable sort by descending
timestamp and `LIMIT` as a prefix. -/
def SqliteTradeStore.recent_trades (s : SqliteTradeStore) (min_size_usd : ℚ)
    (limit : Nat) (since_ts : Option ℚ) (platforms : List Str)
    (wallet : Option Str) : List Trade :=
  (List.insertionSort tsGE
    (s.rows.filter (sqlWherePred min_size_usd since_ts platforms wallet))).take
    limit

/-- Embedding of `PostgresTradeStore.recent_trades` (`store/trade_store.py`
lines 619-675), identical in shape to the SQLite query. -/
def PostgresTradeStore.recent_trades (s : PostgresTradeStore) (min_size_usd : ℚ)
    (limit : Nat) (since_ts : Option ℚ) (platforms : List Str)
    (wallet : Option Str) : List Trade :=
  (List.insertionSort tsGE
    (s.rows.filter (sqlWherePred min_size_usd since_ts platforms wallet))).take
    limit

/-- Above-gate trade with timestamp 1, used by the C7 counterexample. -/
def tradeA : Trade :=
  { timestamp := 1, platform := "kalshi".toList, market := "m".toList,
    size_usd := 200, side := "yes".toList, actor_address := none,
    price := none, quantity := none, trade_id := some "a".toList }

/-- Above-gate trade with timestamp 2, used by the C7 counterexample. -/
def tradeB : Trade :=
  { timestamp := 2, platform := "kalshi".toList, market := "m".toList,
    size_usd := 200, side := "yes".toList, actor_address := none,
    price := none, quantity := none, trade_id := some "b".toList }

/-- C7 counterexample: adding trades out of timestamp order (timestamp 2
first, then timestamp 1) makes the in-memory `recent_trades` return the
older trade first — reverse insertion order, not timestamp-descending —
while the SQL model on the same rows returns newest first. -/
theorem recent_trades_order_counterexample :
    ((((InMemoryTradeStore.mk 2000 []).add_trade tradeB).add_trade
          tradeA).recent_trades 0 10 none [] none).map Trade.timestamp =
        [1, 2] ∧
      ((SqliteTradeStore.mk [tradeB, tradeA]).recent_trades 0 10 none []
          none).map Trade.timestamp = [2, 1] ∧
      (1 : ℚ) < 2 := by
  refine ⟨?_, ?_, by norm_num⟩
  · norm_num [InMemoryTradeStore.add_trade, InMemoryTradeStore.recent_trades,
      tradeA, tradeB]
  · norm_num [SqliteTradeStore.recent_trades, sqlWherePred, tsGE,
      List.insertionSort, List.orderedInsert, tradeA, tradeB]

/-- Fusion of the sequential in-memory filters into the single SQL WHERE
predicate: both retain exactly the same trades. -/
theorem inmemory_recent_trades_eq_filter (m : InMemoryTradeStore)
    (min_size : ℚ) (limit : Nat) (since_ts : Option ℚ) (platforms : List Str)
    (wallet : Option Str) :
    m.recent_trades min_size limit since_ts platforms wallet =
      ((m.trades.filter
          (sqlWherePred min_size since_ts platforms wallet)).reverse).take
        limit := by
  unfold InMemoryTradeStore.recent_trades
  dsimp only
  congr 1
  congr 1
  have hpt : ∀ (p q : Trade → Bool) (l : List Trade), (∀ a ∈ l, p a = q a) →
      l.filter p = l.filter q := fun p q l h => List.filter_congr h
  rcases since_ts with _ | ts <;> rcases wallet with _ | w <;> dsimp only <;>
    by_cases hplat : platforms.isEmpty
  · rw [if_pos hplat]
    refine hpt _ _ _ (fun a ha => ?_)
    simp [sqlWherePred, hplat]
  · rw [if_neg hplat]
    simp only [List.filter_filter]
    refine hpt _ _ _ (fun a ha => ?_)
    simp [sqlWherePred, hplat, Bool.and_comm, Bool.and_left_comm, Bool.and_assoc]
  · by_cases hw : w.isEmpty
    · rw [if_pos hw, if_pos hplat]
      refine hpt _ _ _ (fun a ha => ?_)
      simp [sqlWherePred, hplat, hw]
    · rw [if_neg hw, if_pos hplat]
      simp only [List.filter_filter]
      refine hpt _ _ _ (fun a ha => ?_)
      simp [sqlWherePred, hplat, hw, Bool.and_comm, Bool.and_left_comm,
        Bool.and_assoc]
  · by_cases hw : w.isEmpty
    · rw [if_pos hw, if_neg hplat]
      simp only [List.filter_filter]
      refine hpt _ _ _ (fun a ha => ?_)
      simp [sqlWherePred, hplat, hw, Bool.and_comm, Bool.and_left_comm,
        Bool.and_assoc]
    · rw [if_neg hw, if_neg hplat]
      simp only [List.filter_filter]
      refine hpt _ _ _ (fun a ha => ?_)
      simp [sqlWherePred, hplat, hw, Bool.and_comm, Bool.and_left_comm,
        Bool.and_assoc]
  · rw [if_pos hplat]
    simp only [List.filter_filter]
    refine hpt _ _ _ (fun a ha => ?_)
    simp [sqlWherePred, hplat, Bool.and_comm, Bool.and_left_comm, Bool.and_assoc]
  · rw [if_neg hplat]
    simp only [List.filter_filter]
    refine hpt _ _ _ (fun a ha => ?_)
    simp [sqlWherePred, hplat, Bool.and_comm, Bool.and_left_comm, Bool.and_assoc]
  · by_cases hw : w.isEmpty
    · rw [if_pos hw, if_pos hplat]
      simp only [List.filter_filter]
      refine hpt _ _ _ (fun a ha => ?_)
      simp [sqlWherePred, hplat, hw, Bool.and_comm, Bool.and_left_comm,
        Bool.and_assoc]
    · rw [if_neg hw, if_pos hplat]
      simp only [List.filter_filter]
      refine hpt _ _ _ (fun a ha => ?_)
      simp [sqlWherePred, hplat, hw, Bool.and_comm, Bool.and_left_comm,
        Bool.and_assoc]
  · by_cases hw : w.isEmpty
    · rw [if_pos hw, if_neg hplat]
      simp only [List.filter_filter]
      refine hpt _ _ _ (fun a ha => ?_)
      simp [sqlWherePred, hplat, hw, Bool.and_comm, Bool.and_left_comm,
        Bool.and_assoc]
    · rw [if_neg hw, if_neg hplat]
      simp only [List.filter_filter]
      refine hpt _ _ _ (fun a ha => ?_)
      simp [sqlWherePred, hplat, hw, Bool.and_comm, Bool.and_left_comm,
        Bool.and_assoc]

/-- Uniqueness of the descending arrangement: a strictly descending list
equals any equally-permuted laxly descending list. -/
theorem sorted_desc_eq_of_perm (l₁ l₂ : List Trade) (hperm : l₁.Perm l₂)
    (h₁ : l₁.Pairwise (fun a b => b.timestamp < a.timestamp))
    (h₂ : l₂.Pairwise tsGE) : l₁ = l₂ := by
  induction l₁ generalizing l₂ with
  | nil => exact (List.Perm.eq_nil hperm.symm).symm
  | cons a l ih =>
      cases l₂ with
      | nil => exact List.Perm.eq_nil hperm
      | cons b l₂' =>
          have hab : a = b := by
            by_contra hne
            have hbmem : b ∈ a :: l := hperm.symm.subset (List.mem_cons_self b l₂')
            have hamem : a ∈ b :: l₂' := hperm.subset (List.mem_cons_self a l)
            have hb : b ∈ l := by
              rcases List.mem_cons.mp hbmem with h | h
              · exact absurd h.symm hne
              · exact h
            have ha : a ∈ l₂' := by
              rcases List.mem_cons.mp hamem with h | h
              · exact absurd h hne
              · exact h
            have hlt : b.timestamp < a.timestamp :=
              (List.pairwise_cons.mp h₁).1 b hb
            have hle : a.timestamp ≤ b.timestamp :=
              (List.pairwise_cons.mp h₂).1 a ha
            exact absurd hle (not_le.mpr hlt)
          subst hab
          have hperm' : l.Perm l₂' := hperm.cons_inv
          rw [ih l₂' hperm' (List.pairwise_cons.mp h₁).2
            (List.pairwise_cons.mp h₂).2]

/-- A strictly ascending list reversed equals its stable descending
sort. -/
theorem reverse_eq_insertionSort (l : List Trade)
    (hstrict : l.Pairwise (fun a b => a.timestamp < b.timestamp)) :
    l.reverse = List.insertionSort tsGE l := by
  apply sorted_desc_eq_of_perm
  · exact (List.reverse_perm l).trans (List.perm_insertionSort tsGE l).symm
  · rw [List.pairwise_reverse]
    exact hstrict
  · exact List.sorted_insertionSort tsGE l

/-- C7 (amended): on the SQL backends `recent_trades` returns the
AND-filtered rows newest first (timestamp-descending), capped at `limit`,
identically for the SQLite and Postgres models; the in-memory backend
returns the filtered trades in reverse insertion order capped at `limit`,
which coincides with the SQL backends whenever its trades were added in
strictly increasing timestamp order.  With out-of-order insertions the
in-memory order is not timestamp-descending (see the counterexample). -/
theorem recent_trades_amended :
    (∀ (s : SqliteTradeStore) (min_size : ℚ) (limit : Nat)
        (since_ts : Option ℚ) (platforms : List Str) (wallet : Option Str),
      (s.recent_trades min_size limit since_ts platforms wallet).Pairwise
          tsGE ∧
        (s.recent_trades min_size limit since_ts platforms
            wallet).length ≤ limit ∧
        (∀ tr ∈ s.recent_trades min_size limit since_ts platforms wallet,
          sqlWherePred min_size since_ts platforms wallet tr = true) ∧
        (PostgresTradeStore.mk s.rows).recent_trades min_size limit since_ts
            platforms wallet =
          s.recent_trades min_size limit since_ts platforms wallet) ∧
    ∀ (m : InMemoryTradeStore) (min_size : ℚ) (limit : Nat)
        (since_ts : Option ℚ) (platforms : List Str) (wallet : Option Str),
      m.trades.Pairwise (fun a b => a.timestamp < b.timestamp) →
      m.recent_trades min_size limit since_ts platforms wallet =
        (SqliteTradeStore.mk m.trades).recent_trades min_size limit since_ts
          platforms wallet := by
  constructor
  · intro s min_size limit since_ts platforms wallet
    refine ⟨?_, ?_, ?_, rfl⟩
    · exact List.Pairwise.sublist (List.take_sublist _ _)
        (List.sorted_insertionSort tsGE _)
    · exact List.length_take_le _ _
    · intro tr htr
      have h1 : tr ∈ List.insertionSort tsGE
          (s.rows.filter (sqlWherePred min_size since_ts platforms wallet)) :=
        (List.take_sublist _ _).subset htr
      have h2 : tr ∈ s.rows.filter
          (sqlWherePred min_size since_ts platforms wallet) :=
        (List.perm_insertionSort tsGE _).subset h1
      exact (List.mem_filter.mp h2).2
  · intro m min_size limit since_ts platforms wallet hsorted
    rw [inmemory_recent_trades_eq_filter]
    unfold SqliteTradeStore.recent_trades
    dsimp only
    congr 1
    exact reverse_eq_insertionSort _
      (List.Pairwise.sublist (List.filter_sublist _) hsorted)

/-- C7 witness: the amended theorem applied to a concrete store whose
trades were inserted in increasing timestamp order; both backends return
the same newest-first list. -/
theorem recent_trades_amended_witness :
    (InMemoryTradeStore.mk 2000 [tradeA, tradeB]).recent_trades 0 10 none []
        none =
      (SqliteTradeStore.mk [tradeA, tradeB]).recent_trades 0 10 none []
        none :=
  recent_trades_amended.2 (InMemoryTradeStore.mk 2000 [tradeA, tradeB]) 0 10
    none [] none (by norm_num [tradeA, tradeB, List.pairwise_cons])
